import Mathlib

/-!
Verification of the Photo Mesh minimal AI service (`minimal_ai_service.py`).

The development shallowly embeds the encoding pipeline of the service:
color classification, region color aggregation, brightness handling,
emotion mapping, caption templating, keyword collection, and the two
50-slot embedding encoders (image side and query side).

Modelling conventions:
* Python numbers are modelled exactly: channel means and scores as `ℚ`,
  truncation by `int(...)` as an explicit truncation-toward-zero on `ℚ`,
  prototype coordinates as `ℤ`.
* The source compares Euclidean distances `(...) ** 0.5`; the square root
  is strictly monotone on the nonnegative reals, so comparing squared
  distances selects the same minimizer.  We track squared distances so the
  search stays in exact integer arithmetic.
* Python dictionaries preserve insertion order; they are modelled as
  insertion-ordered association lists with in-place update (`dictSet`).
* Python's `sorted` is stable; the stable insertion sort `sortDesc` below
  produces the same list as any stable descending sort by count.
* A `try/except` block whose body can only fail through the image library
  is modelled by an `Option`-valued input (`none` = the guarded
  computation raised) or by a `Bool` success flag; the `except` branch
  becomes the `none`/`false` case.
* Python's string `hash` is process-seeded; the encoder is parameterised
  by a function `hash : String → ℕ` standing for `abs(hash(·))`.
-/

/- The Batteries rational-arithmetic primitives are `@[irreducible]`,
which blocks `decide`/`rfl` evaluation of concrete test vectors; reopen
them for definitional reduction in this file. -/
unseal Rat.add Rat.mul Rat.inv Rat.sub Rat.ofScientific

/-! ## Color classifier (`rgb_to_color_name`, source lines 219-244) -/

/-- Python `int(...)` on a rational: truncation toward zero. -/
def pyint (q : ℚ) : ℤ := if 0 ≤ q then ⌊q⌋ else -⌊-q⌋

/-- The fixed color palette `self.color_names` (source lines 28-40):
each of the 11 color names with its three RGB prototype triples,
in the source's insertion order. -/
def color_names : List (String × List (ℤ × ℤ × ℤ)) :=
  [("red",    [(255, 0, 0), (139, 0, 0), (220, 20, 60)]),
   ("green",  [(0, 128, 0), (0, 255, 0), (34, 139, 34)]),
   ("blue",   [(0, 0, 255), (0, 0, 139), (30, 144, 255)]),
   ("yellow", [(255, 255, 0), (255, 215, 0), (255, 165, 0)]),
   ("purple", [(128, 0, 128), (75, 0, 130), (138, 43, 226)]),
   ("orange", [(255, 165, 0), (255, 140, 0), (255, 69, 0)]),
   ("pink",   [(255, 192, 203), (255, 20, 147), (255, 105, 180)]),
   ("brown",  [(165, 42, 42), (139, 69, 19), (160, 82, 45)]),
   ("gray",   [(128, 128, 128), (169, 169, 169), (105, 105, 105)]),
   ("black",  [(0, 0, 0), (25, 25, 25), (47, 79, 79)]),
   ("white",  [(255, 255, 255), (248, 248, 255), (245, 245, 245)])]

/-- Squared Euclidean distance between an input triple and a prototype.
The source takes the square root before comparing; square root is strictly
monotone on nonnegatives, so the minimizer is unchanged. -/
def distSq (r g b tr tg tb : ℤ) : ℤ :=
  (r - tr) ^ 2 + (g - tg) ^ 2 + (b - tb) ^ 2

/-- One step of the nearest-prototype loop.  The state is
`(min_distance, closest_color)`; `none` models the initial
`float('inf')`, which every finite distance beats. -/
def stepProto (r g b : ℤ) (name : String) (st : Option ℤ × String)
    (p : ℤ × ℤ × ℤ) : Option ℤ × String :=
  let d := distSq r g b p.1 p.2.1 p.2.2
  match st.1 with
  | none => (some d, name)
  | some m => if d < m then (some d, name) else st

/-- The nearest-prototype search of `rgb_to_color_name`
(source lines 233-244), initialized with `(inf, "mixed")`. -/
def closestColor (r g b : ℤ) : String :=
  (color_names.foldl
    (fun st entry => entry.2.foldl (stepProto r g b entry.1) st)
    ((none : Option ℤ), "mixed")).2

/-- `rgb_to_color_name` (source lines 219-244): truncate the channel means
to integers, apply the grayscale test (pairwise differences `< 30`,
classifying by the red channel's intensity), otherwise run the
nearest-prototype search. -/
def rgb_to_color_name (r g b : ℚ) : String :=
  let ri := pyint r
  let gi := pyint g
  let bi := pyint b
  if |ri - gi| < 30 ∧ |gi - bi| < 30 ∧ |ri - bi| < 30 then
    if ri < 60 then "black"
    else if ri > 200 then "white"
    else "gray"
  else
    closestColor ri gi bi

/-! ## Ordered-dictionary helpers (Python `dict` with insertion order) -/

/-- `d[k] = v` on an insertion-ordered association list: update in place
when the key exists (keeping its position, as Python dicts do),
otherwise append. -/
def dictSet {α : Type} (d : List (String × α)) (k : String) (v : α) :
    List (String × α) :=
  if d.any (fun p => p.1 == k) then
    d.map (fun p => if p.1 == k then (k, v) else p)
  else d ++ [(k, v)]

/-- `d.get(k, dflt)`. -/
def dictGetD {α : Type} (d : List (String × α)) (k : String) (dflt : α) : α :=
  match d.lookup k with
  | some v => v
  | none => dflt

/-- Python `max(a, b)` (returns `a` on ties), written so the kernel can
evaluate it on rationals. -/
def pymax (a b : ℚ) : ℚ := if a < b then b else a

/-- Python `min(a, b)` (returns `a` on ties), written so the kernel can
evaluate it on rationals. -/
def pymin (a b : ℚ) : ℚ := if b < a then b else a

/-! ## Region color aggregator (`analyze_colors`, source lines 174-217) -/

/-- The `color_counts` tally loop (source lines 196-203):
`color_counts[color] = color_counts.get(color, 0) + 1`. -/
def tally (l : List String) : List (String × ℕ) :=
  l.foldl (fun cc c => dictSet cc c (dictGetD cc c 0 + 1)) []

/-- Stable descending insertion by count: `x` is placed before the first
entry whose count is `≤` its own, so earlier-tallied colors precede
later ones on ties, exactly as Python's stable `sorted(..., reverse=True)`. -/
def insertDesc (x : String × ℕ) : List (String × ℕ) → List (String × ℕ)
  | [] => [x]
  | y :: ys => if y.2 ≤ x.2 then x :: y :: ys else y :: insertDesc x ys

/-- Stable descending sort by count, the model of
`sorted(color_counts.items(), key=lambda x: x[1], reverse=True)`.
Any two stable sorts under the same key agree, so this insertion sort
returns the same list as the source's Timsort. -/
def sortDesc : List (String × ℕ) → List (String × ℕ)
  | [] => []
  | x :: xs => insertDesc x (sortDesc xs)

/-- `analyze_colors` (source lines 174-217).  The input models the
image-statistics gathering: `none` when `ImageStat` raises (the outer
`except` returns `["mixed"]`), otherwise the whole-image mean together
with the five region means, `none` standing for a region whose
crop/stat raised (that region is skipped by `except: continue`). -/
def analyze_colors
    (stat : Option ((ℚ × ℚ × ℚ) × List (Option (ℚ × ℚ × ℚ)))) :
    List String :=
  match stat with
  | none => ["mixed"]
  | some (mean, regionStats) =>
    let colors := [rgb_to_color_name mean.1 mean.2.1 mean.2.2]
    let regionColors := regionStats.filterMap
      (fun rs => rs.map (fun m => rgb_to_color_name m.1 m.2.1 m.2.2))
    let color_counts := tally regionColors
    let sorted_colors := sortDesc color_counts
    let colors := (sorted_colors.take 4).foldl
      (fun cs p => if p.1 ∈ cs then cs else cs ++ [p.1]) colors
    colors.take 3

/-! ## Brightness analyzer (`analyze_brightness`, source lines 246-254) -/

/-- `analyze_brightness`: the grayscale mean when the statistics call
succeeds, the default `128` when it raises. -/
def analyze_brightness (stat : Option ℚ) : ℚ :=
  match stat with
  | some m => m
  | none => 128

/-! ## Emotion mapper (`analyze_emotions_from_colors`, source lines 256-294) -/

/-- The per-color mood table `color_emotions` (source lines 261-273). -/
def color_emotions : List (String × List (String × ℚ)) :=
  [("red",    [("energetic", 0.8), ("passionate", 0.7), ("exciting", 0.6)]),
   ("blue",   [("calm", 0.8), ("peaceful", 0.7), ("cool", 0.6)]),
   ("green",  [("natural", 0.8), ("peaceful", 0.6), ("fresh", 0.7)]),
   ("yellow", [("happy", 0.8), ("cheerful", 0.7), ("bright", 0.6)]),
   ("purple", [("mysterious", 0.7), ("elegant", 0.6), ("creative", 0.5)]),
   ("orange", [("warm", 0.8), ("energetic", 0.6), ("friendly", 0.7)]),
   ("pink",   [("romantic", 0.8), ("soft", 0.7), ("feminine", 0.6)]),
   ("brown",  [("earthy", 0.8), ("natural", 0.6), ("warm", 0.5)]),
   ("black",  [("dramatic", 0.8), ("mysterious", 0.7), ("elegant", 0.6)]),
   ("white",  [("clean", 0.8), ("pure", 0.7), ("minimal", 0.6)]),
   ("gray",   [("neutral", 0.8), ("calm", 0.5), ("balanced", 0.6)])]

/-- `analyze_emotions_from_colors` (source lines 256-294): per-color
lookups keeping the maximum weight per mood, brightness thresholds
(`> 180` / `< 80`) adding or boosting moods, and a final clamp
`min(score, 1.0)` applied to every entry in place. -/
def analyze_emotions_from_colors (colors : List String) (brightness : ℚ) :
    List (String × ℚ) :=
  let emotions : List (String × ℚ) := []
  let emotions := colors.foldl (fun em c =>
    match color_emotions.lookup c with
    | some tbl =>
        tbl.foldl (fun em es => dictSet em es.1 (pymax (dictGetD em es.1 0) es.2)) em
    | none => em) emotions
  let emotions :=
    if brightness > 180 then
      let em := dictSet emotions "bright" 0.8
      dictSet em "cheerful" (dictGetD em "cheerful" 0 + 0.3)
    else if brightness < 80 then
      let em := dictSet emotions "moody" 0.7
      dictSet em "dramatic" (dictGetD em "dramatic" 0 + 0.3)
    else
      dictSet emotions "balanced" 0.6
  emotions.map (fun es => (es.1, pymin es.2 1))

/-! ## Data model of the analysis result (source lines 53-63) -/

/-- A pseudo-object's bounding box, always the full image extent. -/
structure BoundingBox where
  x : ℕ
  y : ℕ
  width : ℕ
  height : ℕ
deriving DecidableEq

/-- A pseudo-object entry of the `objects` list. -/
structure PseudoObject where
  name : String
  confidence : ℚ
  bounding_box : BoundingBox
deriving DecidableEq

/-- A `semantic_concepts` entry. -/
structure SemanticConcept where
  concept : String
  confidence : ℚ
  category : String
deriving DecidableEq

/-- The result record built by `analyze_image_basic` (source lines 53-63).
Field names follow the keys of the result dictionary; note that the
embedding key in the source is `clip_embedding`. -/
structure AnalysisResult where
  objects : List PseudoObject
  text : List String
  caption : String
  emotions : List (String × ℚ)
  colors : List String
  search_keywords : List String
  relationships : List String
  semantic_concepts : List SemanticConcept
  clip_embedding : List ℚ

/-- The keys of the result dictionary, in the order they appear in the
source (lines 53-63); these are exactly the keys serialized on the
image path. -/
def analysis_result_fields : List String :=
  ["objects", "text", "caption", "emotions", "colors", "search_keywords",
   "relationships", "semantic_concepts", "clip_embedding"]

/-! ## Image inputs

`analyze_image_basic` interacts with the image library in a few places;
the pieces of information it draws from the decoded image, together with
the failure points of its `try`/`except` blocks, are collected in one
record. -/

/-- The data `analyze_image_basic` extracts from a decoded image.
`colorStat`/`brightnessStat` are `none` when the corresponding
image-statistics call raises; `captionOk`/`embeddingOk` are `false` when
the caption/embedding stage raises internally; `hash` models Python's
process-seeded `abs(hash(·))` on strings. -/
structure ImageData where
  width : ℕ
  height : ℕ
  colorStat : Option ((ℚ × ℚ × ℚ) × List (Option (ℚ × ℚ × ℚ)))
  brightnessStat : Option ℚ
  captionOk : Bool
  embeddingOk : Bool
  hash : String → ℕ

/-- Detected colors of the image (source line 72). -/
def imageColors (img : ImageData) : List String :=
  analyze_colors img.colorStat

/-- Brightness of the image (source line 107). -/
def imageBrightness (img : ImageData) : ℚ :=
  analyze_brightness img.brightnessStat

/-- The whole-image bounding box attached to every pseudo-object. -/
def fullBox (w h : ℕ) : BoundingBox := ⟨0, 0, w, h⟩

/-- The resolution tier (source lines 93-98). -/
def size_category (total_pixels : ℕ) : String :=
  if total_pixels > 2000000 then "high_resolution"
  else if total_pixels > 500000 then "medium_resolution"
  else "low_resolution"

/-- The pseudo-object list (source lines 76-121): an optional orientation
label (aspect ratio `> 1.5` / `< 0.67`), the resolution tier with
confidence `0.8`, and an optional brightness label (`> 200` / `< 80`). -/
def imageObjects (img : ImageData) : List PseudoObject :=
  let aspect_ratio : ℚ := (img.width : ℚ) / (img.height : ℚ)
  let objects : List PseudoObject :=
    if aspect_ratio > 1.5 then
      [⟨"landscape", 0.9, fullBox img.width img.height⟩]
    else if aspect_ratio < 0.67 then
      [⟨"portrait", 0.9, fullBox img.width img.height⟩]
    else []
  let objects := objects ++
    [⟨size_category (img.width * img.height), 0.8, fullBox img.width img.height⟩]
  let brightness := imageBrightness img
  if brightness > 200 then
    objects ++ [⟨"bright_image", 0.7, fullBox img.width img.height⟩]
  else if brightness < 80 then
    objects ++ [⟨"dark_image", 0.7, fullBox img.width img.height⟩]
  else objects

/-- Emotions of the image (source line 124). -/
def imageEmotions (img : ImageData) : List (String × ℚ) :=
  analyze_emotions_from_colors (imageColors img) (imageBrightness img)

/-- `s.add(x)` on the insertion-ordered model of a Python `set`. -/
def setAdd (s : List String) (x : String) : List String :=
  if x ∈ s then s else s ++ [x]

/-- `s.update(xs)` on the insertion-ordered model of a Python `set`. -/
def setUnion (s : List String) (xs : List String) : List String :=
  xs.foldl setAdd s

/-- The search keywords (source lines 130-143): the set union of colors,
object names, emotion keys and orientation words.  Python set iteration
order is unspecified; the model uses insertion order, and no verified
claim depends on the order. -/
def imageKeywords (img : ImageData) : List String :=
  let kws := setUnion [] (imageColors img)
  let kws := setUnion kws ((imageObjects img).map (·.name))
  let kws := setUnion kws ((imageEmotions img).map (·.1))
  let aspect_ratio : ℚ := (img.width : ℚ) / (img.height : ℚ)
  if aspect_ratio > 1.3 then setUnion kws ["wide", "horizontal"]
  else if aspect_ratio < 0.8 then setUnion kws ["tall", "vertical"]
  else kws

/-- The semantic concepts (source lines 146-162): a `"<color> tones"`
visual concept per detected color, and one concept per emotion whose
score exceeds `0.5`. -/
def imageConcepts (img : ImageData) : List SemanticConcept :=
  ((imageColors img).take 3).map (fun c => ⟨c ++ " tones", 0.7, "visual"⟩)
  ++ ((imageEmotions img).filter (fun e => e.2 > 0.5)).map
      (fun e => ⟨e.1, e.2, "emotion"⟩)

/-! ## Caption composer (`generate_basic_caption`, source lines 296-329) -/

/-- `generate_basic_caption`: brightness prefix (thresholds `200`/`80`),
one or two colors joined with `and` (fallback `"colorful"`), an optional
orientation word, and the terminal `"image"`; on any internal failure
(`ok = false`) the literal `"A photograph"`. -/
def generate_basic_caption (ok : Bool) (colors : List String)
    (objects : List PseudoObject) (brightness : ℚ) : String :=
  if ok then
    let part1 :=
      if brightness > 200 then "A bright"
      else if brightness < 80 then "A dark"
      else "A"
    let color_text :=
      if colors.length > 1 then colors.getD 0 "" ++ " and " ++ colors.getD 1 ""
      else if colors.length > 0 then colors.getD 0 ""
      else "colorful"
    let orientations := ((objects.filter
      (fun o => o.name == "landscape" || o.name == "portrait")).map (·.name))
    let parts := [part1, color_text]
      ++ (match orientations with | [] => [] | o :: _ => [o])
      ++ ["image"]
    String.intercalate " " parts
  else "A photograph"

/-! ## Image embedding encoder (`generate_simple_embedding`,
source lines 331-377) -/

/-- The color-to-slot dictionary `color_map` (source lines 338-341). -/
def color_map : List (String × ℕ) :=
  [("red", 0), ("green", 1), ("blue", 2), ("yellow", 3), ("purple", 4),
   ("orange", 5), ("pink", 6), ("brown", 7), ("black", 8), ("white", 9),
   ("gray", 10)]

/-- The object-label-to-slot dictionary `object_features`
(source lines 348-351). -/
def object_features : List (String × ℕ) :=
  [("landscape", 11), ("portrait", 12), ("bright_image", 13),
   ("dark_image", 14), ("high_resolution", 15), ("medium_resolution", 16),
   ("low_resolution", 17)]

/-- The color loop (source lines 343-345): set slot `color_map[color]`
to `1.0` for every detected color that has a slot. -/
def embedColors (fs : List ℚ) (colors : List String) : List ℚ :=
  colors.foldl (fun fs c =>
    match color_map.lookup c with
    | some i => fs.set i 1
    | none => fs) fs

/-- The object loop (source lines 353-356): set slot
`object_features[name]` to the object's confidence. -/
def embedObjects (fs : List ℚ) (objects : List PseudoObject) : List ℚ :=
  objects.foldl (fun fs o =>
    match object_features.lookup o.name with
    | some i => fs.set i o.confidence
    | none => fs) fs

/-- Consecutive writes `features[base + i] = xs[i]`, the model of a
`for i, x in enumerate(xs)` assignment loop. -/
def writeSeq (fs : List ℚ) (base : ℕ) : List ℚ → List ℚ
  | [] => fs
  | x :: xs => writeSeq (fs.set base x) (base + 1) xs

/-- `generate_simple_embedding` (source lines 331-377), success path:
a 50-slot zero vector, color slots (0-10), object slots (11-17),
the first 20 emotion scores from slot 18, and the first 12 keyword
hashes (`abs(hash(k)) % 100 / 100.0`) from slot 38. -/
def generate_simple_embedding (colors : List String)
    (objects : List PseudoObject) (emotions : List (String × ℚ))
    (keywords : List String) (hash : String → ℕ) : List ℚ :=
  let features : List ℚ := List.replicate 50 0
  let features := embedColors features colors
  let features := embedObjects features objects
  let features := writeSeq features 18 ((emotions.take 20).map (·.2))
  let features := writeSeq features 38
    ((keywords.take 12).map (fun k => ((hash k % 100 : ℕ) : ℚ) / 100))
  features

/-- The success path of `analyze_image_basic` (source lines 43-168),
assembling the result record. -/
def analyzeSuccess (img : ImageData) : AnalysisResult :=
  { objects := imageObjects img
    text := []
    caption := generate_basic_caption img.captionOk (imageColors img)
      (imageObjects img) (imageBrightness img)
    emotions := imageEmotions img
    colors := imageColors img
    search_keywords := imageKeywords img
    relationships := []
    semantic_concepts := imageConcepts img
    clip_embedding :=
      if img.embeddingOk then
        generate_simple_embedding (imageColors img) (imageObjects img)
          (imageEmotions img) (imageKeywords img) img.hash
      else List.replicate 50 0 }

/-- `analyze_image_basic` with its top-level `try`/`except`
(source lines 45, 170-172): a decode or extraction failure is caught
once and surfaced as a single error string (`{"error": str(e)}`),
otherwise the full result record is produced. -/
def analyze_image_basic (input : Except String ImageData) :
    Except String AnalysisResult :=
  match input with
  | .error e => .error e
  | .ok img => .ok (analyzeSuccess img)

/-! ## Query embedding encoder (`semantic_search`, source lines 425-458) -/

/-- ASCII lowercasing of one character, the relevant fragment of Python's
`str.lower` (all queries in the verified claims are ASCII). -/
def pyLower (c : Char) : Char :=
  if 'A' ≤ c ∧ c ≤ 'Z' then Char.ofNat (c.toNat + 32) else c

/-- Whitespace characters recognized by Python's no-argument `split`
(the forms that occur in queries). -/
def isWs (c : Char) : Bool :=
  c == ' ' || c == '\t' || c == '\n' || c == '\r'

/-- Python `str.split()` on a character list: split on whitespace runs,
dropping empty tokens. -/
def splitWsAux : List Char → List Char → List (List Char)
  | [], acc => if acc = [] then [] else [acc.reverse]
  | c :: cs, acc =>
    if isWs c then
      (if acc = [] then splitWsAux cs [] else acc.reverse :: splitWsAux cs [])
    else splitWsAux cs (c :: acc)

/-- Python substring containment `pat in w`. -/
def strContainsSub (w pat : List Char) : Bool :=
  (List.range (w.length + 1)).any (fun i => (w.drop i).take pat.length == pat)

/-- The color vocabulary `color_words` of the query encoder
(source line 437), in source order: the slot of a color is its position
in this list. -/
def color_words : List String :=
  ["red", "green", "blue", "yellow", "purple", "orange", "pink", "brown",
   "black", "white", "gray"]

/-- The query embedding of `semantic_search` (source lines 433-450):
lowercase and whitespace-tokenize the query; slot `i` of `color_words`
is set to `1.0` when any token contains that color as a substring;
slots 13/14/11/12 are set to `1.0` on exact membership of a token in
the bright/dark/wide/tall word lists.  Slots 15-49 are never written. -/
def semantic_search_embedding (query : String) : List ℚ :=
  let words := splitWsAux (query.data.map pyLower) []
  let embedding : List ℚ := List.replicate 50 0
  let embedding := color_words.enum.foldl (fun emb ic =>
    if words.any (fun w => strContainsSub w ic.2.data) then emb.set ic.1 1
    else emb) embedding
  let embedding :=
    if words.any (fun w => w == "bright".data || w == "light".data || w == "sunny".data)
    then embedding.set 13 1 else embedding
  let embedding :=
    if words.any (fun w => w == "dark".data || w == "night".data || w == "shadow".data)
    then embedding.set 14 1 else embedding
  let embedding :=
    if words.any (fun w => w == "wide".data || w == "landscape".data || w == "horizontal".data)
    then embedding.set 11 1 else embedding
  let embedding :=
    if words.any (fun w => w == "tall".data || w == "portrait".data || w == "vertical".data)
    then embedding.set 12 1 else embedding
  embedding

/-- The slots the image embedding encoder writes for a given analysis
result: color slots, object slots, the emotion block from slot 18, and
the keyword block from slot 38. -/
def writtenSlots (colors : List String) (objects : List PseudoObject)
    (emotions : List (String × ℚ)) (keywords : List String) : List ℕ :=
  colors.filterMap (fun c => color_map.lookup c)
  ++ objects.filterMap (fun o => object_features.lookup o.name)
  ++ (List.range (min 20 emotions.length)).map (18 + ·)
  ++ (List.range (min 12 keywords.length)).map (38 + ·)

/-- A concrete image input used to instantiate hypothesis-bearing
results: a 1000x1000 image whose mean color is pure blue, with all
region statistics available and equal to the mean, mid brightness,
and a fixed keyword hash. -/
def imgBlue : ImageData :=
  { width := 1000
    height := 1000
    colorStat := some ((0, 0, 255),
      [some (0, 0, 255), some (0, 0, 255), some (0, 0, 255),
       some (0, 0, 255), some (0, 0, 255)])
    brightnessStat := some 128
    captionOk := true
    embeddingOk := true
    hash := fun _ => 7 }

/-! ## Helper lemmas on list writes -/

theorem getD_set_ne (l : List ℚ) (i j : ℕ) (a : ℚ) (h : i ≠ j) :
    (l.set i a).getD j 0 = l.getD j 0 := by
  rw [List.getD_eq_getElem?_getD, List.getD_eq_getElem?_getD,
    List.getElem?_set_ne h]

theorem getD_set_self (l : List ℚ) (i : ℕ) (a : ℚ) (h : i < l.length) :
    (l.set i a).getD i 0 = a := by
  rw [List.getD_eq_getElem?_getD, List.getElem?_set_self h]
  rfl

theorem getD_replicate_zero (n j : ℕ) :
    (List.replicate n (0 : ℚ)).getD j 0 = 0 := by
  rw [List.getD_eq_getElem?_getD]
  rcases Nat.lt_or_ge j n with h | h
  · rw [List.getElem?_eq_getElem (by simpa using h)]
    simp
  · rw [List.getElem?_eq_none (by simpa using h)]
    rfl

/-! ### Lengths of the embedding stages -/

theorem length_embedColors (fs : List ℚ) (colors : List String) :
    (embedColors fs colors).length = fs.length := by
  induction colors generalizing fs with
  | nil => rfl
  | cons c cs ih =>
    simp only [embedColors, List.foldl_cons]
    rcases hc : color_map.lookup c with _ | i
    · simpa [embedColors, hc] using ih fs
    · simpa [embedColors, hc] using (ih (fs.set i 1)).trans (List.length_set ..)

theorem length_embedObjects (fs : List ℚ) (objects : List PseudoObject) :
    (embedObjects fs objects).length = fs.length := by
  induction objects generalizing fs with
  | nil => rfl
  | cons o os ih =>
    simp only [embedObjects, List.foldl_cons]
    rcases hc : object_features.lookup o.name with _ | i
    · simpa [embedObjects, hc] using ih fs
    · simpa [embedObjects, hc] using
        (ih (fs.set i o.confidence)).trans (List.length_set ..)

theorem length_writeSeq (xs : List ℚ) (fs : List ℚ) (base : ℕ) :
    (writeSeq fs base xs).length = fs.length := by
  induction xs generalizing fs base with
  | nil => rfl
  | cons x xs ih =>
    show (writeSeq (fs.set base x) (base + 1) xs).length = fs.length
    rw [ih, List.length_set]

theorem length_generate_simple_embedding (colors : List String)
    (objects : List PseudoObject) (emotions : List (String × ℚ))
    (keywords : List String) (hash : String → ℕ) :
    (generate_simple_embedding colors objects emotions keywords hash).length = 50 := by
  unfold generate_simple_embedding
  rw [length_writeSeq, length_writeSeq, length_embedObjects,
    length_embedColors, List.length_replicate]

/-! ### Slots written by the embedding stages -/

theorem lookup_color_map_le (c : String) (i : ℕ)
    (h : color_map.lookup c = some i) : i ≤ 10 := by
  simp only [color_map, List.lookup] at h
  repeat' split at h
  all_goals simp_all
  all_goals omega

theorem lookup_object_features_range (c : String) (i : ℕ)
    (h : object_features.lookup c = some i) : 11 ≤ i ∧ i ≤ 17 := by
  simp only [object_features, List.lookup] at h
  repeat' split at h
  all_goals simp_all
  all_goals omega

theorem getD_embedColors_not_mem (fs : List ℚ) (colors : List String) (j : ℕ)
    (h : ∀ i ∈ colors.filterMap (fun c => color_map.lookup c), i ≠ j) :
    (embedColors fs colors).getD j 0 = fs.getD j 0 := by
  induction colors generalizing fs with
  | nil => rfl
  | cons c cs ih =>
    simp only [embedColors, List.foldl_cons]
    rcases hc : color_map.lookup c with _ | i
    · exact ih fs (by intro i hi; exact h i (by simp [hc, hi]))
    · show (embedColors (fs.set i 1) cs).getD j 0 = fs.getD j 0
      rw [ih (fs.set i 1) (by intro i' hi'; exact h i' (by simp [hc, hi']))]
      exact getD_set_ne _ _ _ _ (h i (by simp [hc]))

theorem getD_embedObjects_not_mem (fs : List ℚ) (objects : List PseudoObject)
    (j : ℕ)
    (h : ∀ i ∈ objects.filterMap (fun o => object_features.lookup o.name), i ≠ j) :
    (embedObjects fs objects).getD j 0 = fs.getD j 0 := by
  induction objects generalizing fs with
  | nil => rfl
  | cons o os ih =>
    simp only [embedObjects, List.foldl_cons]
    rcases hc : object_features.lookup o.name with _ | i
    · exact ih fs (by intro i hi; exact h i (by simp [hc, hi]))
    · show (embedObjects (fs.set i o.confidence) os).getD j 0 = fs.getD j 0
      rw [ih _ (by intro i' hi'; exact h i' (by simp [hc, hi']))]
      exact getD_set_ne _ _ _ _ (h i (by simp [hc]))

theorem getD_writeSeq_out (xs : List ℚ) (fs : List ℚ) (base j : ℕ)
    (h : j < base ∨ base + xs.length ≤ j) :
    (writeSeq fs base xs).getD j 0 = fs.getD j 0 := by
  induction xs generalizing fs base with
  | nil => rfl
  | cons x xs ih =>
    show (writeSeq (fs.set base x) (base + 1) xs).getD j 0 = fs.getD j 0
    rw [ih (fs.set base x) (base + 1)
        (by simp only [List.length_cons] at h; omega),
      getD_set_ne _ _ _ _ (by simp only [List.length_cons] at h; omega)]

/-! ### Membership in the embedding stages -/

theorem mem_embedColors (fs : List ℚ) (colors : List String) (x : ℚ)
    (hx : x ∈ embedColors fs colors) : x ∈ fs ∨ x = 1 := by
  induction colors generalizing fs with
  | nil => exact Or.inl hx
  | cons c cs ih =>
    simp only [embedColors, List.foldl_cons] at hx
    rcases hc : color_map.lookup c with _ | i
    · rw [hc] at hx; exact ih fs hx
    · rw [hc] at hx
      rcases ih _ hx with h | h
      · rcases List.mem_or_eq_of_mem_set h with h' | h'
        · exact Or.inl h'
        · exact Or.inr h'
      · exact Or.inr h

theorem mem_embedObjects (fs : List ℚ) (objects : List PseudoObject) (x : ℚ)
    (hx : x ∈ embedObjects fs objects) :
    x ∈ fs ∨ ∃ o ∈ objects, x = o.confidence := by
  induction objects generalizing fs with
  | nil => exact Or.inl hx
  | cons o os ih =>
    simp only [embedObjects, List.foldl_cons] at hx
    rcases hc : object_features.lookup o.name with _ | i
    · rw [hc] at hx
      rcases ih fs hx with h | ⟨o', ho', he⟩
      · exact Or.inl h
      · exact Or.inr ⟨o', List.mem_cons_of_mem _ ho', he⟩
    · rw [hc] at hx
      rcases ih _ hx with h | ⟨o', ho', he⟩
      · rcases List.mem_or_eq_of_mem_set h with h' | h'
        · exact Or.inl h'
        · exact Or.inr ⟨o, List.mem_cons_self .., h'⟩
      · exact Or.inr ⟨o', List.mem_cons_of_mem _ ho', he⟩

theorem mem_writeSeq (xs : List ℚ) (fs : List ℚ) (base : ℕ) (x : ℚ)
    (hx : x ∈ writeSeq fs base xs) : x ∈ fs ∨ x ∈ xs := by
  induction xs generalizing fs base with
  | nil => exact Or.inl hx
  | cons y ys ih =>
    rcases ih (fs.set base y) (base + 1) hx with h | h
    · rcases List.mem_or_eq_of_mem_set h with h' | h'
      · exact Or.inl h'
      · exact Or.inr (h' ▸ List.mem_cons_self ..)
    · exact Or.inr (List.mem_cons_of_mem _ h)

/-! ### Ordered-dictionary membership lemmas -/

theorem mem_dictSet {α : Type} (d : List (String × α)) (k : String) (v : α)
    (p : String × α) (hp : p ∈ dictSet d k v) : p ∈ d ∨ p = (k, v) := by
  unfold dictSet at hp
  split at hp
  · rcases List.mem_map.mp hp with ⟨q, hq, he⟩
    by_cases hk : q.1 == k
    · right; rw [if_pos hk] at he; exact he.symm
    · left; rw [if_neg hk] at he; exact he ▸ hq
  · rcases List.mem_append.mp hp with h | h
    · exact Or.inl h
    · right; simpa using h

theorem dictSet_all {α : Type} (P : String × α → Prop) (d : List (String × α))
    (k : String) (v : α) (hd : ∀ p ∈ d, P p) (hv : P (k, v)) :
    ∀ p ∈ dictSet d k v, P p := by
  intro p hp
  rcases mem_dictSet d k v p hp with h | h
  · exact hd p h
  · exact h ▸ hv

theorem exists_mem_of_lookup {α : Type} :
    ∀ (l : List (String × α)) (k : String) (v : α),
      l.lookup k = some v → ∃ k', (k', v) ∈ l := by
  intro l
  induction l with
  | nil => intro k v h; cases h
  | cons p ps ih =>
    intro k v h
    rw [List.lookup_cons] at h
    split at h
    · injection h with h
      exact ⟨p.1, by rw [← h]; simp⟩
    · rcases ih k v h with ⟨k', hk'⟩
      exact ⟨k', List.mem_cons_of_mem _ hk'⟩

theorem dictGetD_nonneg (d : List (String × ℚ)) (k : String)
    (hd : ∀ p ∈ d, 0 ≤ p.2) : 0 ≤ dictGetD d k 0 := by
  unfold dictGetD
  rcases hl : d.lookup k with _ | v
  · exact le_refl 0
  · rcases exists_mem_of_lookup d k v hl with ⟨k', hk'⟩
    exact hd (k', v) hk'

/-! ### Bounds for the mood scores -/

theorem pymax_le_left (a b : ℚ) : b ≤ pymax a b := by
  unfold pymax; split
  · exact le_refl b
  · linarith [not_lt.mp (by assumption)]

theorem pymin_le (a b : ℚ) : pymin a b ≤ b := by
  unfold pymin; split
  · exact le_refl b
  · exact not_lt.mp (by assumption)

theorem pymin_nonneg (a b : ℚ) (ha : 0 ≤ a) (hb : 0 ≤ b) : 0 ≤ pymin a b := by
  unfold pymin; split
  · exact hb
  · exact ha

/-- Every weight in the per-color mood table is in `[0, 1]`. -/
theorem color_emotions_weights :
    ∀ ct ∈ color_emotions, ∀ es ∈ ct.2, 0 ≤ es.2 ∧ es.2 ≤ 1 := by
  decide

theorem emotions_inner_fold_nonneg (tbl : List (String × ℚ))
    (htbl : ∀ es ∈ tbl, 0 ≤ es.2) (em : List (String × ℚ))
    (hem : ∀ p ∈ em, 0 ≤ p.2) :
    ∀ p ∈ tbl.foldl
        (fun em es => dictSet em es.1 (pymax (dictGetD em es.1 0) es.2)) em,
      0 ≤ p.2 := by
  induction tbl generalizing em with
  | nil => exact hem
  | cons es tbl ih =>
    rw [List.foldl_cons]
    refine ih (fun e he => htbl e (List.mem_cons_of_mem _ he)) _ ?_
    exact dictSet_all _ _ _ _ hem
      (le_trans (htbl es (List.mem_cons_self ..)) (pymax_le_left _ _))

theorem emotions_color_fold_nonneg (colors : List String)
    (em : List (String × ℚ)) (hem : ∀ p ∈ em, 0 ≤ p.2) :
    ∀ p ∈ colors.foldl (fun em c =>
        match color_emotions.lookup c with
        | some tbl => tbl.foldl
            (fun em es => dictSet em es.1 (pymax (dictGetD em es.1 0) es.2)) em
        | none => em) em, 0 ≤ p.2 := by
  induction colors generalizing em with
  | nil => exact hem
  | cons c cs ih =>
    rw [List.foldl_cons]
    refine ih _ ?_
    split
    next tbl hc =>
      refine emotions_inner_fold_nonneg tbl ?_ em hem
      rcases exists_mem_of_lookup _ _ _ hc with ⟨k', hk'⟩
      intro es hes
      exact (color_emotions_weights (k', tbl) hk' es hes).1
    next => exact hem

/-- Every score produced by the emotion mapper lies in `[0, 1]`
(the source clamps with `min(score, 1.0)`, and every written value is
nonnegative). -/
theorem analyze_emotions_bounds (colors : List String) (brightness : ℚ) :
    ∀ p ∈ analyze_emotions_from_colors colors brightness,
      0 ≤ p.2 ∧ p.2 ≤ 1 := by
  intro p hp
  unfold analyze_emotions_from_colors at hp
  rcases List.mem_map.mp hp with ⟨q, hq, he⟩
  have hbase := emotions_color_fold_nonneg colors [] (by simp)
  have hq2 : 0 ≤ q.2 := by
    split at hq
    · refine dictSet_all (fun p => 0 ≤ p.2) _ _ _
        (dictSet_all _ _ _ _ hbase (by norm_num)) ?_ q hq
      have := dictGetD_nonneg
        (dictSet _ "bright" 0.8 : List (String × ℚ)) "cheerful"
        (dictSet_all _ _ _ _ hbase (by norm_num))
      simpa using by linarith
    · split at hq
      · refine dictSet_all (fun p => 0 ≤ p.2) _ _ _
          (dictSet_all _ _ _ _ hbase (by norm_num)) ?_ q hq
        have := dictGetD_nonneg
          (dictSet _ "moody" 0.7 : List (String × ℚ)) "dramatic"
          (dictSet_all _ _ _ _ hbase (by norm_num))
        simpa using by linarith
      · exact dictSet_all _ _ _ _ hbase (by norm_num) q hq
  rw [← he]
  exact ⟨pymin_nonneg _ _ hq2 (by norm_num), pymin_le _ _⟩

/-! ### Slot bookkeeping for the embedding vector -/

theorem not_mem_range_map_off (n base j : ℕ)
    (h : j ∉ (List.range n).map (base + ·)) : j < base ∨ base + n ≤ j := by
  by_contra hc
  push_neg at hc
  exact h (List.mem_map.mpr ⟨j - base, List.mem_range.mpr (by omega), by omega⟩)

/-- A slot outside `writtenSlots` keeps the initial value `0`. -/
theorem generate_simple_embedding_unused (colors : List String)
    (objects : List PseudoObject) (emotions : List (String × ℚ))
    (keywords : List String) (hash : String → ℕ) (j : ℕ)
    (h : j ∉ writtenSlots colors objects emotions keywords) :
    (generate_simple_embedding colors objects emotions keywords hash).getD j 0
      = 0 := by
  unfold writtenSlots at h
  simp only [List.mem_append, not_or] at h
  obtain ⟨⟨⟨h1, h2⟩, h3⟩, h4⟩ := h
  unfold generate_simple_embedding
  rw [getD_writeSeq_out _ _ _ _ (by
        rcases not_mem_range_map_off _ _ _ h4 with h | h
        · exact Or.inl h
        · refine Or.inr ?_
          rw [List.length_map, List.length_take]
          omega),
    getD_writeSeq_out _ _ _ _ (by
        rcases not_mem_range_map_off _ _ _ h3 with h | h
        · exact Or.inl h
        · refine Or.inr ?_
          rw [List.length_map, List.length_take]
          omega),
    getD_embedObjects_not_mem _ _ _ (fun i hi => by
        intro hij
        exact h2 (hij ▸ hi)),
    getD_embedColors_not_mem _ _ _ (fun i hi => by
        intro hij
        exact h1 (hij ▸ hi)),
    getD_replicate_zero]

/-! ### Confidence and hash-slot bounds -/

theorem imageObjects_confidence (img : ImageData) :
    ∀ o ∈ imageObjects img, 0 ≤ o.confidence ∧ o.confidence ≤ 1 := by
  intro o ho
  unfold imageObjects at ho
  dsimp only at ho
  split_ifs at ho
  all_goals
    simp only [List.mem_append, List.mem_cons, List.mem_singleton,
      List.not_mem_nil, or_false, false_or] at ho
  all_goals try simp only [or_assoc] at ho
  all_goals rcases ho with rfl | rfl | rfl <;> constructor <;> norm_num

theorem hash_slot_bound (n : ℕ) :
    0 ≤ ((n % 100 : ℕ) : ℚ) / 100 ∧ ((n % 100 : ℕ) : ℚ) / 100 ≤ 1 := by
  constructor
  · positivity
  · rw [div_le_one (by norm_num)]
    have h : (n % 100) < 100 := Nat.mod_lt _ (by norm_num)
    exact le_of_lt (by exact_mod_cast h)

/-- The embedding field of the success-path result. -/
theorem clip_embedding_eq (img : ImageData) :
    (analyzeSuccess img).clip_embedding =
      if img.embeddingOk then
        generate_simple_embedding (imageColors img) (imageObjects img)
          (imageEmotions img) (imageKeywords img) img.hash
      else List.replicate 50 0 := rfl

/-- **C2.** The image-path embedding always has exactly 50 entries, every
entry lies in `[0, 1]`, slots not written by any feature stay `0.0`, and
the internal-failure path of the encoder returns the all-zero 50-vector. -/
theorem image_embedding_shape (img : ImageData) :
    (analyzeSuccess img).clip_embedding.length = 50
    ∧ (∀ x ∈ (analyzeSuccess img).clip_embedding, 0 ≤ x ∧ x ≤ 1)
    ∧ (∀ j, j ∉ writtenSlots (imageColors img) (imageObjects img)
        (imageEmotions img) (imageKeywords img) →
        (analyzeSuccess img).clip_embedding.getD j 0 = 0)
    ∧ (analyzeSuccess { img with embeddingOk := false }).clip_embedding
        = List.replicate 50 0 := by
  refine ⟨?_, ?_, ?_, by simp [clip_embedding_eq]⟩
  · rw [clip_embedding_eq]
    split
    · exact length_generate_simple_embedding ..
    · exact List.length_replicate ..
  · intro x hx
    rw [clip_embedding_eq] at hx
    split at hx
    · unfold generate_simple_embedding at hx
      rcases mem_writeSeq _ _ _ _ hx with hx | hx
      · rcases mem_writeSeq _ _ _ _ hx with hx | hx
        · rcases mem_embedObjects _ _ _ hx with hx | ⟨o, ho, rfl⟩
          · rcases mem_embedColors _ _ _ hx with hx | rfl
            · rw [List.eq_of_mem_replicate hx]
              constructor <;> norm_num
            · constructor <;> norm_num
          · exact imageObjects_confidence img o ho
        · rcases List.mem_map.mp hx with ⟨q, hq, rfl⟩
          exact analyze_emotions_bounds _ _ q
            ((List.take_sublist _ _).subset hq)
      · rcases List.mem_map.mp hx with ⟨k, hk, rfl⟩
        exact hash_slot_bound _
    · rw [List.eq_of_mem_replicate hx]
      constructor <;> norm_num
  · intro j hj
    rw [clip_embedding_eq]
    split
    · exact generate_simple_embedding_unused _ _ _ _ _ _ hj
    · exact getD_replicate_zero ..

/-- Witness for **C2** at the concrete image `imgBlue`, discharging the
membership and unused-slot hypotheses there. -/
theorem image_embedding_shape_witness :
    (analyzeSuccess imgBlue).clip_embedding.length = 50
    ∧ (analyzeSuccess imgBlue).clip_embedding.getD 49 0 = 0 :=
  ⟨(image_embedding_shape imgBlue).1,
   (image_embedding_shape imgBlue).2.2.1 49 (by decide)⟩

/-- **C7 (counterexample).** The embedding field of the image-path result
dictionary is named `clip_embedding` in the source (lines 53-63), not
`embedding` as the claim states. -/
theorem image_result_field_name_counterexample :
    "embedding" ∉ analysis_result_fields
    ∧ "clip_embedding" ∈ analysis_result_fields := by
  decide

/-- **C7 (amended).** On the success path the analysis returns the record
with fields `objects`, `text`, `caption`, `emotions`, `colors`,
`search_keywords`, `relationships`, `semantic_concepts` and
`clip_embedding`, where `clip_embedding` is a list of exactly 50 values
and `text` is always empty. -/
theorem image_result_structure (img : ImageData) :
    (analyzeSuccess img).text = []
    ∧ (analyzeSuccess img).clip_embedding.length = 50
    ∧ analysis_result_fields =
      ["objects", "text", "caption", "emotions", "colors",
       "search_keywords", "relationships", "semantic_concepts",
       "clip_embedding"] := by
  refine ⟨rfl, ?_, rfl⟩
  rw [clip_embedding_eq]
  split
  · exact length_generate_simple_embedding ..
  · exact List.length_replicate ..

/-- **C3.** The emotion mapper on `colors=["blue"]`, `brightness=128`
returns exactly `{calm: 0.8, peaceful: 0.7, cool: 0.6, balanced: 0.6}`,
with no other keys. -/
theorem emotion_mapper_blue_128 :
    analyze_emotions_from_colors ["blue"] 128 =
      [("calm", 0.8), ("peaceful", 0.7), ("cool", 0.6), ("balanced", 0.6)] := by
  decide

theorem pyint_intCast (n : ℤ) : pyint (n : ℚ) = n := by
  unfold pyint
  split
  · exact Int.floor_intCast n
  · rw [show (-(n : ℚ)) = ((-n : ℤ) : ℚ) by push_cast; ring, Int.floor_intCast]
    omega

/-- **C4.** For integer channel triples that are pairwise within 30 units
of each other, the color classifier bypasses palette matching and
classifies by the gray-channel intensity (the source uses the red channel
as the gray value): `< 60` gives `black`, `> 200` gives `white`, and
anything else gives `gray`. -/
theorem grayscale_classification (r g b : ℤ) (h1 : |r - g| < 30)
    (h2 : |g - b| < 30) (h3 : |r - b| < 30) :
    rgb_to_color_name (r : ℚ) (g : ℚ) (b : ℚ) =
      if r < 60 then "black" else if r > 200 then "white" else "gray" := by
  simp only [rgb_to_color_name, pyint_intCast]
  rw [if_pos ⟨h1, h2, h3⟩]

/-- Witness for **C4** at the gray triple `(50, 50, 50)`. -/
theorem grayscale_classification_witness :
    rgb_to_color_name ((50 : ℤ) : ℚ) ((50 : ℤ) : ℚ) ((50 : ℤ) : ℚ) =
      if (50 : ℤ) < 60 then "black"
      else if (50 : ℤ) > 200 then "white" else "gray" :=
  grayscale_classification 50 50 50 (by decide) (by decide) (by decide)

/-- **C5.** The query encoder on `"bright blue sky"` sets slot 2 (blue,
by substring containment) and slot 13 (bright, by exact token match) to
`1.0`, and every slot from 15 through 49 stays `0.0`. -/
theorem query_embedding_bright_blue_sky :
    (semantic_search_embedding "bright blue sky").getD 2 0 = 1
    ∧ (semantic_search_embedding "bright blue sky").getD 13 0 = 1
    ∧ ∀ j, j < 50 → 15 ≤ j →
        (semantic_search_embedding "bright blue sky").getD j 0 = 0 := by
  decide

/-- Witness for **C5**, reading back slot 20 of the query embedding. -/
theorem query_embedding_bright_blue_sky_witness :
    (semantic_search_embedding "bright blue sky").getD 20 0 = 0 :=
  query_embedding_bright_blue_sky.2.2 20 (by decide) (by decide)

/-- **C1.** Both encoders use the same slot layout: the query encoder's
color list, indexed positionally, is exactly the image encoder's
`color_map` (red..gray on slots 0-10); querying any single color word
sets exactly that slot; and the labels `landscape`, `portrait`,
`bright_image`, `dark_image` go to slots 11, 12, 13, 14 in the image
encoder's `object_features` and in the query encoder's writes alike. -/
theorem encoders_share_slot_layout :
    (color_words.enum.map (fun p => (p.2, p.1)) = color_map)
    ∧ (∀ i, i < 11 →
        semantic_search_embedding (color_words.getD i "") =
          (List.replicate 50 (0 : ℚ)).set i 1)
    ∧ object_features.lookup "landscape" = some 11
    ∧ object_features.lookup "portrait" = some 12
    ∧ object_features.lookup "bright_image" = some 13
    ∧ object_features.lookup "dark_image" = some 14
    ∧ semantic_search_embedding "landscape" = (List.replicate 50 (0 : ℚ)).set 11 1
    ∧ semantic_search_embedding "portrait" = (List.replicate 50 (0 : ℚ)).set 12 1
    ∧ semantic_search_embedding "bright" = (List.replicate 50 (0 : ℚ)).set 13 1
    ∧ semantic_search_embedding "dark" = (List.replicate 50 (0 : ℚ)).set 14 1 := by
  decide

/-- Witness for **C1**, instantiating the per-color conjunct at blue. -/
theorem encoders_share_slot_layout_witness :
    semantic_search_embedding (color_words.getD 2 "") =
      (List.replicate 50 (0 : ℚ)).set 2 1 :=
  encoders_share_slot_layout.2.1 2 (by decide)

/-- **C8.** Per-stage failures are absorbed with their fixed defaults
(`["mixed"]` colors, brightness `128`, caption `"A photograph"`,
all-zero embedding), and the top-level call either returns the full
result record or a single error string, never both. -/
theorem failure_defaults :
    analyze_colors none = ["mixed"]
    ∧ analyze_brightness none = 128
    ∧ (∀ colors objects brightness,
        generate_basic_caption false colors objects brightness = "A photograph")
    ∧ (∀ img : ImageData,
        (analyzeSuccess { img with embeddingOk := false }).clip_embedding
          = List.replicate 50 0)
    ∧ (∀ e : String, analyze_image_basic (.error e) = .error e)
    ∧ (∀ img : ImageData,
        analyze_image_basic (.ok img) = .ok (analyzeSuccess img)) :=
  ⟨rfl, rfl, fun _ _ _ => rfl, fun img => by simp [clip_embedding_eq],
   fun _ => rfl, fun _ => rfl⟩

/-! ### The nearest-prototype search never keeps the `"mixed"` sentinel -/

/-- The fold of the nearest-prototype search over a list of palette
entries (the outer loop of `rgb_to_color_name`). -/
theorem innerFold_name (r g b : ℤ) (name : String)
    (protos : List (ℤ × ℤ × ℤ)) (st : Option ℤ × String) :
    (protos.foldl (stepProto r g b name) st).2 = st.2
    ∨ (protos.foldl (stepProto r g b name) st).2 = name := by
  induction protos generalizing st with
  | nil => exact Or.inl rfl
  | cons p ps ih =>
    rw [List.foldl_cons]
    have hstep : (stepProto r g b name st p).2 = st.2
        ∨ (stepProto r g b name st p).2 = name := by
      unfold stepProto
      rcases hst : st.1 with _ | m
      · exact Or.inr rfl
      · dsimp only
        split
        · exact Or.inr rfl
        · exact Or.inl rfl
    rcases ih (stepProto r g b name st p) with h | h
    · rw [h]
      exact hstep
    · exact Or.inr h

theorem outerFold_name (r g b : ℤ)
    (entries : List (String × List (ℤ × ℤ × ℤ))) (st : Option ℤ × String) :
    (entries.foldl (fun st entry => entry.2.foldl (stepProto r g b entry.1) st) st).2
        = st.2
    ∨ (entries.foldl (fun st entry => entry.2.foldl (stepProto r g b entry.1) st) st).2
        ∈ entries.map Prod.fst := by
  induction entries generalizing st with
  | nil => exact Or.inl rfl
  | cons e es ih =>
    rw [List.foldl_cons]
    rcases ih (e.2.foldl (stepProto r g b e.1) st) with h | h
    · rw [h]
      rcases innerFold_name r g b e.1 e.2 st with h' | h'
      · exact Or.inl h'
      · exact Or.inr (by rw [h']; simp)
    · exact Or.inr (by simpa using Or.inr h)

/-- The nearest-prototype search always lands on a palette color: the
first prototype of the first entry replaces the `(inf, "mixed")`
initialization, and every later step keeps some entry's name. -/
theorem closestColor_mem (r g b : ℤ) :
    closestColor r g b ∈ color_names.map Prod.fst := by
  unfold closestColor
  have h1 : color_names.foldl
      (fun st entry => entry.2.foldl (stepProto r g b entry.1) st)
      ((none : Option ℤ), "mixed")
      = color_names.tail.foldl
          (fun st entry => entry.2.foldl (stepProto r g b entry.1) st)
          ([((139 : ℤ), (0 : ℤ), (0 : ℤ)), (220, 20, 60)].foldl
            (stepProto r g b "red")
            (some (distSq r g b 255 0 0), "red")) := rfl
  rw [h1]
  rcases outerFold_name r g b color_names.tail _ with H | H
  · rw [H]
    rcases innerFold_name r g b "red" [(139, 0, 0), (220, 20, 60)]
        (some (distSq r g b 255 0 0), "red") with h | h
    · rw [h]
      exact (by decide : ("red" : String) ∈ color_names.map Prod.fst)
    · rw [h]
      exact (by decide : ("red" : String) ∈ color_names.map Prod.fst)
  · have h2 : color_names.map Prod.fst
        = "red" :: color_names.tail.map Prod.fst := rfl
    rw [h2]
    exact List.mem_cons_of_mem _ H

/-- The color classifier never returns the `"mixed"` sentinel: the
grayscale branch returns `black`/`white`/`gray` and the search branch a
palette name. -/
theorem rgb_to_color_name_ne_mixed (r g b : ℚ) :
    rgb_to_color_name r g b ≠ "mixed" := by
  unfold rgb_to_color_name
  dsimp only
  split
  · split
    · decide
    · split <;> decide
  · intro h
    have hm := closestColor_mem (pyint r) (pyint g) (pyint b)
    rw [h] at hm
    exact absurd hm (by decide)

/-! ### Membership through the aggregator's tally, sort and append -/

theorem mem_tally_aux (l : List String) :
    ∀ (acc : List (String × ℕ)) (p : String × ℕ),
      p ∈ l.foldl (fun cc c => dictSet cc c (dictGetD cc c 0 + 1)) acc →
      p ∈ acc ∨ p.1 ∈ l := by
  induction l with
  | nil => exact fun acc p hp => Or.inl hp
  | cons c cs ih =>
    intro acc p hp
    rw [List.foldl_cons] at hp
    rcases ih _ p hp with h | h
    · rcases mem_dictSet _ _ _ _ h with h' | h'
      · exact Or.inl h'
      · exact Or.inr (by rw [h']; exact List.mem_cons_self ..)
    · exact Or.inr (List.mem_cons_of_mem _ h)

theorem mem_tally (l : List String) (p : String × ℕ) (hp : p ∈ tally l) :
    p.1 ∈ l := by
  rcases mem_tally_aux l [] p hp with h | h
  · cases h
  · exact h

theorem mem_insertDesc (x y : String × ℕ) (l : List (String × ℕ))
    (h : y ∈ insertDesc x l) : y = x ∨ y ∈ l := by
  induction l with
  | nil => simpa [insertDesc] using h
  | cons z zs ih =>
    unfold insertDesc at h
    by_cases hc : z.2 ≤ x.2
    · rw [if_pos hc, List.mem_cons] at h
      exact h
    · rw [if_neg hc, List.mem_cons] at h
      rcases h with h | h
      · exact Or.inr (by rw [h]; exact List.mem_cons_self ..)
      · rcases ih h with h' | h'
        · exact Or.inl h'
        · exact Or.inr (List.mem_cons_of_mem _ h')

theorem mem_sortDesc (l : List (String × ℕ)) (y : String × ℕ)
    (h : y ∈ sortDesc l) : y ∈ l := by
  induction l with
  | nil => simp [sortDesc] at h
  | cons x xs ih =>
    unfold sortDesc at h
    rcases mem_insertDesc x y _ h with h1 | h1
    · exact h1 ▸ List.mem_cons_self ..
    · exact List.mem_cons_of_mem _ (ih h1)

theorem mem_appendFold (l : List (String × ℕ)) :
    ∀ (cs : List String) (z : String),
      z ∈ l.foldl (fun cs p => if p.1 ∈ cs then cs else cs ++ [p.1]) cs →
      z ∈ cs ∨ ∃ p ∈ l, z = p.1 := by
  induction l with
  | nil => exact fun cs z hz => Or.inl hz
  | cons q l ih =>
    intro cs z hz
    rw [List.foldl_cons] at hz
    rcases ih _ z hz with h | ⟨p, hp, he⟩
    · split at h
      · exact Or.inl h
      · rcases List.mem_append.mp h with h' | h'
        · exact Or.inl h'
        · exact Or.inr ⟨q, List.mem_cons_self .., by simpa using h'⟩
    · exact Or.inr ⟨p, List.mem_cons_of_mem _ hp, he⟩

theorem appendFold_extends (l : List (String × ℕ)) :
    ∀ cs : List String, ∃ ex,
      l.foldl (fun cs p => if p.1 ∈ cs then cs else cs ++ [p.1]) cs
        = cs ++ ex := by
  induction l with
  | nil => exact fun cs => ⟨[], by simp⟩
  | cons q l ih =>
    intro cs
    rw [List.foldl_cons]
    split
    · exact ih cs
    · rcases ih (cs ++ [q.1]) with ⟨ex, hex⟩
      exact ⟨[q.1] ++ ex, by rw [hex, List.append_assoc]⟩

theorem appendFold_nodup (l : List (String × ℕ)) :
    ∀ cs : List String, cs.Nodup →
      (l.foldl (fun cs p => if p.1 ∈ cs then cs else cs ++ [p.1]) cs).Nodup := by
  induction l with
  | nil => exact fun cs h => h
  | cons q l ih =>
    intro cs h
    rw [List.foldl_cons]
    split
    · exact ih cs h
    · refine ih _ ?_
      simp only [List.nodup_append, List.nodup_singleton, true_and]
      exact ⟨h, by simpa using (by assumption : ¬q.1 ∈ cs)⟩

/-- **C10.** Whenever the grayscale test fails, the nearest-prototype
search returns one of the 11 palette names (the `"mixed"` initialization
is unreachable since the palette is nonempty), so `"mixed"` can only
enter the detected-colors list through the aggregator's failure
fallback. -/
theorem classifier_never_mixed :
    (∀ r g b : ℤ, ¬(|r - g| < 30 ∧ |g - b| < 30 ∧ |r - b| < 30) →
        rgb_to_color_name (r : ℚ) (g : ℚ) (b : ℚ) ∈ color_names.map Prod.fst)
    ∧ (∀ stat : (ℚ × ℚ × ℚ) × List (Option (ℚ × ℚ × ℚ)),
        "mixed" ∉ analyze_colors (some stat))
    ∧ analyze_colors none = ["mixed"] := by
  refine ⟨?_, ?_, rfl⟩
  · intro r g b h
    simp only [rgb_to_color_name, pyint_intCast]
    rw [if_neg h]
    exact closestColor_mem r g b
  · rintro ⟨mean, regs⟩ hmem
    unfold analyze_colors at hmem
    dsimp only at hmem
    have hmem2 := (List.take_sublist _ _).subset hmem
    rcases mem_appendFold _ _ _ hmem2 with h | ⟨p, hp, he⟩
    · simp only [List.mem_singleton] at h
      exact rgb_to_color_name_ne_mixed _ _ _ h.symm
    · have hp2 := mem_sortDesc _ _ ((List.take_sublist _ _).subset hp)
      have hp3 := mem_tally _ _ hp2
      rw [← he] at hp3
      rcases List.mem_filterMap.mp hp3 with ⟨rs, hrs, hmap⟩
      rcases rs with _ | m
      · cases hmap
      · simp only [Option.map_some'] at hmap
        exact rgb_to_color_name_ne_mixed _ _ _ (by injection hmap)

/-- Witness for **C10** at the concrete non-gray triple `(200, 0, 0)`. -/
theorem classifier_never_mixed_witness :
    rgb_to_color_name ((200 : ℤ) : ℚ) ((0 : ℤ) : ℚ) ((0 : ℤ) : ℚ)
      ∈ color_names.map Prod.fst :=
  classifier_never_mixed.1 200 0 0 (by decide)

/-! ### The tally of a constant region-color list -/

theorem tally_const_aux (x : String) (l : List String) (hl : ∀ y ∈ l, y = x) :
    ∀ n, l.foldl (fun cc c => dictSet cc c (dictGetD cc c 0 + 1)) [(x, n)]
      = [(x, n + l.length)] := by
  induction l with
  | nil => intro n; simp
  | cons y ys ih =>
    intro n
    have hy : y = x := hl y (List.mem_cons_self ..)
    subst hy
    rw [List.foldl_cons]
    have hstep : dictSet [(y, n)] y (dictGetD [(y, n)] y 0 + 1) = [(y, n + 1)] := by
      simp [dictSet, dictGetD, List.lookup]
    rw [hstep, ih (fun z hz => hl z (List.mem_cons_of_mem _ hz)) (n + 1)]
    simp only [List.length_cons]
    have harith : n + 1 + ys.length = n + (ys.length + 1) := by omega
    rw [harith]

theorem tally_const (l : List String) (x : String) (h : ∀ y ∈ l, y = x) :
    tally l = [] ∨ tally l = [(x, l.length)] := by
  cases l with
  | nil => exact Or.inl rfl
  | cons y ys =>
    right
    unfold tally
    rw [List.foldl_cons]
    have hy : y = x := h y (List.mem_cons_self ..)
    subst hy
    have hstep : dictSet [] y (dictGetD [] y 0 + 1) = [(y, 1)] := rfl
    rw [hstep, tally_const_aux y ys (fun z hz => h z (List.mem_cons_of_mem _ hz))]
    simp only [List.length_cons]
    have harith : 1 + ys.length = ys.length + 1 := by omega
    rw [harith]

/-- **C6.** The classification of the whole-image mean is always at
position 0 of the aggregator's output and is never appended again (the
output has no duplicates); on a solid-color image (all region means
equal to the whole mean) the output is exactly that color's canonical
name. -/
theorem region_aggregator_head_and_solid :
    (∀ (mean : ℚ × ℚ × ℚ) (regs : List (Option (ℚ × ℚ × ℚ))),
        (analyze_colors (some (mean, regs))).head? =
          some (rgb_to_color_name mean.1 mean.2.1 mean.2.2)
        ∧ (analyze_colors (some (mean, regs))).Nodup)
    ∧ (∀ (c : ℚ × ℚ × ℚ) (regs : List (Option (ℚ × ℚ × ℚ))),
        (∀ rs ∈ regs, rs = none ∨ rs = some c) →
        analyze_colors (some (c, regs)) =
          [rgb_to_color_name c.1 c.2.1 c.2.2]) := by
  constructor
  · intro mean regs
    constructor
    · unfold analyze_colors
      dsimp only
      rcases appendFold_extends _ [rgb_to_color_name mean.1 mean.2.1 mean.2.2]
        with ⟨ex, hex⟩
      rw [hex]
      simp
    · unfold analyze_colors
      dsimp only
      exact (appendFold_nodup _ _ (by simp)).sublist (List.take_sublist ..)
  · intro c regs hreg
    have hnc : ∀ y ∈ regs.filterMap
        (fun rs => rs.map (fun m => rgb_to_color_name m.1 m.2.1 m.2.2)),
        y = rgb_to_color_name c.1 c.2.1 c.2.2 := by
      intro y hy
      rcases List.mem_filterMap.mp hy with ⟨rs, hrs, hmap⟩
      rcases hreg rs hrs with rfl | rfl
      · cases hmap
      · simp only [Option.map_some'] at hmap
        injection hmap with hmap2
        exact hmap2.symm
    unfold analyze_colors
    dsimp only
    rcases tally_const _ _ hnc with h | h <;> rw [h]
    · rfl
    · simp [sortDesc, insertDesc]

/-- Witness for **C6** on a solid blue image with all five region
statistics available. -/
theorem region_aggregator_solid_witness :
    analyze_colors (some (((0 : ℚ), (0 : ℚ), (255 : ℚ)),
        List.replicate 5 (some ((0 : ℚ), (0 : ℚ), (255 : ℚ))))) =
      [rgb_to_color_name 0 0 255] :=
  region_aggregator_head_and_solid.2 (0, 0, 255)
    (List.replicate 5 (some (0, 0, 255))) (by decide)

/-! ### Resolution-tier slots (claim C9 machinery) -/

theorem embedObjects_append (fs : List ℚ) (l1 l2 : List PseudoObject) :
    embedObjects fs (l1 ++ l2) = embedObjects (embedObjects fs l1) l2 := by
  simp [embedObjects, List.foldl_append]

/-- Objects carrying only orientation or brightness labels never touch
slots 15-17. -/
theorem getD_embedObjects_le14 (fs : List ℚ) (objs : List PseudoObject)
    (j : ℕ) (hj : 15 ≤ j)
    (hnames : ∀ o ∈ objs, o.name = "landscape" ∨ o.name = "portrait"
      ∨ o.name = "bright_image" ∨ o.name = "dark_image") :
    (embedObjects fs objs).getD j 0 = fs.getD j 0 := by
  apply getD_embedObjects_not_mem
  intro i hi
  rcases List.mem_filterMap.mp hi with ⟨o, ho, hlk⟩
  rcases hnames o ho with h | h | h | h <;> rw [h] at hlk <;>
    first
    | (rw [show object_features.lookup "landscape" = some 11 from rfl] at hlk
       injection hlk with hlk
       omega)
    | (rw [show object_features.lookup "portrait" = some 12 from rfl] at hlk
       injection hlk with hlk
       omega)
    | (rw [show object_features.lookup "bright_image" = some 13 from rfl] at hlk
       injection hlk with hlk
       omega)
    | (rw [show object_features.lookup "dark_image" = some 14 from rfl] at hlk
       injection hlk with hlk
       omega)

/-- Writing the single resolution-tier object sets exactly one of slots
15-17 to its confidence `0.8`. -/
theorem embedObjects_size_slots (fs : List ℚ) (bb : BoundingBox) (n : ℕ)
    (hlen : fs.length = 50) (h15 : fs.getD 15 0 = 0) (h16 : fs.getD 16 0 = 0)
    (h17 : fs.getD 17 0 = 0) :
    ((embedObjects fs [⟨size_category n, 0.8, bb⟩]).getD 15 0,
     (embedObjects fs [⟨size_category n, 0.8, bb⟩]).getD 16 0,
     (embedObjects fs [⟨size_category n, 0.8, bb⟩]).getD 17 0)
    = (if n > 2000000 then ((0.8 : ℚ), 0, 0)
       else if n > 500000 then (0, (0.8 : ℚ), 0)
       else (0, 0, (0.8 : ℚ))) := by
  unfold size_category
  split_ifs with hn1 hn2
  · have he : embedObjects fs [⟨"high_resolution", 0.8, bb⟩]
        = fs.set 15 0.8 := rfl
    rw [he, getD_set_self _ _ _ (by rw [hlen]; norm_num),
      getD_set_ne _ _ _ _ (by norm_num), getD_set_ne _ _ _ _ (by norm_num),
      h16, h17]
  · have he : embedObjects fs [⟨"medium_resolution", 0.8, bb⟩]
        = fs.set 16 0.8 := rfl
    rw [he, getD_set_self _ _ _ (by rw [hlen]; norm_num),
      getD_set_ne _ _ _ _ (by norm_num), getD_set_ne _ _ _ _ (by norm_num),
      h15, h17]
  · have he : embedObjects fs [⟨"low_resolution", 0.8, bb⟩]
        = fs.set 17 0.8 := rfl
    rw [he, getD_set_self _ _ _ (by rw [hlen]; norm_num),
      getD_set_ne _ _ _ _ (by norm_num), getD_set_ne _ _ _ _ (by norm_num),
      h15, h16]

/-- Through the whole object list of an image, slots 15-17 of the feature
vector record exactly the resolution tier at confidence `0.8`. -/
theorem embedObjects_imageObjects_slots (img : ImageData) (fs : List ℚ)
    (hlen : fs.length = 50) (h15 : fs.getD 15 0 = 0) (h16 : fs.getD 16 0 = 0)
    (h17 : fs.getD 17 0 = 0) :
    ((embedObjects fs (imageObjects img)).getD 15 0,
     (embedObjects fs (imageObjects img)).getD 16 0,
     (embedObjects fs (imageObjects img)).getD 17 0)
    = (if img.width * img.height > 2000000 then ((0.8 : ℚ), 0, 0)
       else if img.width * img.height > 500000 then (0, (0.8 : ℚ), 0)
       else (0, 0, (0.8 : ℚ))) := by
  have hbri : ∀ o ∈ [(⟨"bright_image", 0.7, fullBox img.width img.height⟩ : PseudoObject)],
      o.name = "landscape" ∨ o.name = "portrait"
      ∨ o.name = "bright_image" ∨ o.name = "dark_image" := by
    intro o ho
    rw [List.mem_singleton.mp ho]
    exact Or.inr (Or.inr (Or.inl rfl))
  have hdar : ∀ o ∈ [(⟨"dark_image", 0.7, fullBox img.width img.height⟩ : PseudoObject)],
      o.name = "landscape" ∨ o.name = "portrait"
      ∨ o.name = "bright_image" ∨ o.name = "dark_image" := by
    intro o ho
    rw [List.mem_singleton.mp ho]
    exact Or.inr (Or.inr (Or.inr rfl))
  have hlan : ∀ o ∈ [(⟨"landscape", 0.9, fullBox img.width img.height⟩ : PseudoObject)],
      o.name = "landscape" ∨ o.name = "portrait"
      ∨ o.name = "bright_image" ∨ o.name = "dark_image" := by
    intro o ho
    rw [List.mem_singleton.mp ho]
    exact Or.inl rfl
  have hpor : ∀ o ∈ [(⟨"portrait", 0.9, fullBox img.width img.height⟩ : PseudoObject)],
      o.name = "landscape" ∨ o.name = "portrait"
      ∨ o.name = "bright_image" ∨ o.name = "dark_image" := by
    intro o ho
    rw [List.mem_singleton.mp ho]
    exact Or.inr (Or.inl rfl)
  have hnil : ∀ o ∈ ([] : List PseudoObject),
      o.name = "landscape" ∨ o.name = "portrait"
      ∨ o.name = "bright_image" ∨ o.name = "dark_image" :=
    fun o ho => absurd ho (List.not_mem_nil o)
  unfold imageObjects
  dsimp only
  split_ifs
  all_goals simp only [embedObjects_append]
  all_goals
    first
    | rw [getD_embedObjects_le14 _
          [(⟨"bright_image", 0.7, fullBox img.width img.height⟩ : PseudoObject)]
          15 (by norm_num) hbri,
        getD_embedObjects_le14 _
          [(⟨"bright_image", 0.7, fullBox img.width img.height⟩ : PseudoObject)]
          16 (by norm_num) hbri,
        getD_embedObjects_le14 _
          [(⟨"bright_image", 0.7, fullBox img.width img.height⟩ : PseudoObject)]
          17 (by norm_num) hbri]
    | rw [getD_embedObjects_le14 _
          [(⟨"dark_image", 0.7, fullBox img.width img.height⟩ : PseudoObject)]
          15 (by norm_num) hdar,
        getD_embedObjects_le14 _
          [(⟨"dark_image", 0.7, fullBox img.width img.height⟩ : PseudoObject)]
          16 (by norm_num) hdar,
        getD_embedObjects_le14 _
          [(⟨"dark_image", 0.7, fullBox img.width img.height⟩ : PseudoObject)]
          17 (by norm_num) hdar]
    | skip
  all_goals
    refine Eq.trans (embedObjects_size_slots _ _ _ ?_ ?_ ?_ ?_) ?_
  all_goals
    first
    | rw [length_embedObjects, hlen]
    | (rw [getD_embedObjects_le14 _ ([] : List PseudoObject)
          15 (by norm_num) hnil]
       exact h15)
    | (rw [getD_embedObjects_le14 _ ([] : List PseudoObject)
          16 (by norm_num) hnil]
       exact h16)
    | (rw [getD_embedObjects_le14 _ ([] : List PseudoObject)
          17 (by norm_num) hnil]
       exact h17)
    | (rw [getD_embedObjects_le14 _
          [(⟨"landscape", 0.9, fullBox img.width img.height⟩ : PseudoObject)]
          15 (by norm_num) hlan]
       exact h15)
    | (rw [getD_embedObjects_le14 _
          [(⟨"landscape", 0.9, fullBox img.width img.height⟩ : PseudoObject)]
          16 (by norm_num) hlan]
       exact h16)
    | (rw [getD_embedObjects_le14 _
          [(⟨"landscape", 0.9, fullBox img.width img.height⟩ : PseudoObject)]
          17 (by norm_num) hlan]
       exact h17)
    | (rw [getD_embedObjects_le14 _
          [(⟨"portrait", 0.9, fullBox img.width img.height⟩ : PseudoObject)]
          15 (by norm_num) hpor]
       exact h15)
    | (rw [getD_embedObjects_le14 _
          [(⟨"portrait", 0.9, fullBox img.width img.height⟩ : PseudoObject)]
          16 (by norm_num) hpor]
       exact h16)
    | (rw [getD_embedObjects_le14 _
          [(⟨"portrait", 0.9, fullBox img.width img.height⟩ : PseudoObject)]
          17 (by norm_num) hpor]
       exact h17)
    | rw [if_pos (by assumption)]
    | (rw [if_neg (by assumption), if_pos (by assumption)])
    | (rw [if_neg (by assumption), if_neg (by assumption)])

/-- Color slots never reach past slot 10, so the color stage leaves the
resolution slots of the zero vector untouched. -/
theorem getD_embedColors_replicate_high (colors : List String) (j : ℕ)
    (hj : 11 ≤ j) :
    (embedColors (List.replicate 50 0) colors).getD j 0 = 0 := by
  rw [getD_embedColors_not_mem, getD_replicate_zero]
  intro i hi
  rcases List.mem_filterMap.mp hi with ⟨c, hc, hl⟩
  have := lookup_color_map_le c i hl
  omega

/-- **C9.** On the success path the objects list contains exactly one
resolution-tier pseudo-object — `high_resolution` above 2,000,000 pixels,
`medium_resolution` above 500,000, `low_resolution` otherwise — always
with confidence `0.8`; consequently exactly one of embedding slots 15-17
equals `0.8` and the other two equal `0.0` (given the embedding stage
itself did not fail internally). -/
theorem resolution_tier_object_and_slots (img : ImageData)
    (he : img.embeddingOk = true) :
    (analyzeSuccess img).objects.filter
        (fun o => o.name == "high_resolution" || o.name == "medium_resolution"
          || o.name == "low_resolution")
      = [⟨size_category (img.width * img.height), 0.8,
          fullBox img.width img.height⟩]
    ∧ ((analyzeSuccess img).clip_embedding.getD 15 0,
       (analyzeSuccess img).clip_embedding.getD 16 0,
       (analyzeSuccess img).clip_embedding.getD 17 0)
      = (if img.width * img.height > 2000000 then ((0.8 : ℚ), 0, 0)
         else if img.width * img.height > 500000 then (0, (0.8 : ℚ), 0)
         else (0, 0, (0.8 : ℚ))) := by
  constructor
  · show (imageObjects img).filter _ = _
    unfold imageObjects size_category
    dsimp only
    split_ifs <;> simp [List.filter]
  · have hclip : (analyzeSuccess img).clip_embedding
        = generate_simple_embedding (imageColors img) (imageObjects img)
            (imageEmotions img) (imageKeywords img) img.hash := by
      rw [clip_embedding_eq, he]
      simp
    rw [hclip]
    unfold generate_simple_embedding
    dsimp only
    rw [getD_writeSeq_out _ _ _ _ (Or.inl (by norm_num)),
      getD_writeSeq_out _ _ _ _ (Or.inl (by norm_num)),
      getD_writeSeq_out _ _ _ _ (Or.inl (by norm_num)),
      getD_writeSeq_out _ _ _ _ (Or.inl (by norm_num)),
      getD_writeSeq_out _ _ _ _ (Or.inl (by norm_num)),
      getD_writeSeq_out _ _ _ _ (Or.inl (by norm_num))]
    exact embedObjects_imageObjects_slots img _
      (by rw [length_embedColors, List.length_replicate])
      (getD_embedColors_replicate_high _ 15 (by norm_num))
      (getD_embedColors_replicate_high _ 16 (by norm_num))
      (getD_embedColors_replicate_high _ 17 (by norm_num))

/-- Witness for **C9** at the concrete image `imgBlue`
(1,000,000 pixels: the medium-resolution tier). -/
theorem resolution_tier_witness :
    (analyzeSuccess imgBlue).objects.filter
        (fun o => o.name == "high_resolution" || o.name == "medium_resolution"
          || o.name == "low_resolution")
      = [⟨size_category (imgBlue.width * imgBlue.height), 0.8,
          fullBox imgBlue.width imgBlue.height⟩]
    ∧ ((analyzeSuccess imgBlue).clip_embedding.getD 15 0,
       (analyzeSuccess imgBlue).clip_embedding.getD 16 0,
       (analyzeSuccess imgBlue).clip_embedding.getD 17 0)
      = (if imgBlue.width * imgBlue.height > 2000000 then ((0.8 : ℚ), 0, 0)
         else if imgBlue.width * imgBlue.height > 500000 then (0, (0.8 : ℚ), 0)
         else (0, 0, (0.8 : ℚ))) :=
  resolution_tier_object_and_slots imgBlue rfl
